import Mathlib

/-!
Verification of the Adaptive Capture & OCR Consensus Pipeline of the
lensix repository (src/search.py) against its natural-language design
specification.

The Python source is shallowly embedded below:

* pure computations (routing thresholds, token filtering, confidence
  averaging, rectangular cropping, the capture-tool loop) become Lean
  functions over `List`, `String`, `Int`, `Nat` and `Rat`;
* the GUI mouse handlers of `EnhancedOverlay` become an explicit state
  machine over `OverlayState`;
* calls into external capabilities (tesseract, cv2, PIL, subprocess,
  the filesystem) are parameterized by their observable outcomes
  (token/confidence lists, decode success, process exit status,
  presence of the output file), exactly as the source consumes them;
* the pixel-level behaviour of the cv2 / PIL transforms invoked by
  `OCRProcessor.preprocess_image` is embedded over integer pixel
  matrices (`List (List Nat)`), with floating-point intermediates of
  the libraries carried exactly in `Rat` / `Int`.
-/

/-! ## Routing decision (EnhancedOverlay.handle_search_request and the
perform_*_search methods, src/search.py lines 354-411) -/

/-- The four user-selectable search modes (`SearchType` in the source). -/
inductive SearchType
  | text
  | image
  | translate
  | homework
deriving DecidableEq

/-- The externally observable action the overlay takes for a search
request: which collaborator is invoked, with which query text.
`noAction` models the branch that only prints an error message and
invokes no collaborator at all. -/
inductive SearchAction
  | textSearch (q : String)
  | translateSearch (q : String)
  | homeworkSearch (q : String)
  | visualSearch
  | noAction
deriving DecidableEq

/-- `Config.min_confidence` (source line 61). -/
def min_confidence : ℚ := 40

/-- `Config.min_text_length` (source line 62). -/
def min_text_length : ℕ := 3

/-- `EnhancedOverlay.extract_text_from_selection` (lines 403-411), as a
function of the consensus `(text, confidence)` pair returned by
`OCRProcessor.extract_text_multi_strategy`: the text is accepted iff it
is non-empty (truthiness of `text`), its confidence is strictly above
`min_confidence`, and its length is at least `min_text_length`. -/
def extract_text_from_selection (res : String × ℚ) : Option String :=
  if res.1 ≠ "" ∧ min_confidence < res.2 ∧ min_text_length ≤ res.1.length then
    some res.1
  else
    none

/-- `EnhancedOverlay.handle_search_request` (lines 354-371) together
with `perform_text_search`, `perform_visual_search`,
`perform_translate_search` and `perform_homework_search`
(lines 373-401), as a function of the consensus result:

* TEXT: accepted text opens a text search, otherwise fall back to the
  visual search;
* IMAGE: always the visual search;
* TRANSLATE: accepted text opens the translation page, otherwise only
  an error message is printed (`noAction`);
* HOMEWORK: accepted text opens a "solve" search, otherwise fall back
  to the visual search. -/
def handle_search_request (res : String × ℚ) : SearchType → SearchAction
  | SearchType.text =>
    match extract_text_from_selection res with
    | some t => SearchAction.textSearch t
    | none => SearchAction.visualSearch
  | SearchType.image => SearchAction.visualSearch
  | SearchType.translate =>
    match extract_text_from_selection res with
    | some t => SearchAction.translateSearch t
    | none => SearchAction.noAction
  | SearchType.homework =>
    match extract_text_from_selection res with
    | some t => SearchAction.homeworkSearch t
    | none => SearchAction.visualSearch

/-! ## OCR consensus (OCRProcessor.extract_text_multi_strategy,
src/search.py lines 578-614)

The tesseract capability is modelled by its observable output for each
candidate image: `none` when `pytesseract.image_to_data` (or
`Image.open`) raises — the `except` branch of the loop — and
`some data` for a returned list of `(word, conf)` observations. -/

/-- Python `' '.join words`: concatenation with single-space
separators. -/
def joinSpace : List String → String
  | [] => ""
  | [w] => w
  | w :: v :: ws => w ++ " " ++ joinSpace (v :: ws)

/-- Python truthiness of `word.strip()`: the token contains at least
one non-whitespace character (stripping leaves it non-empty). -/
def hasVisibleChar (w : String) : Bool :=
  w.data.any fun c => !c.isWhitespace

/-- The per-token acceptance filter of the inner loop (line 595):
`word.strip()` is truthy and `int(conf) > 0`. -/
def stratAccepted (data : List (String × ℤ)) : List (String × ℤ) :=
  data.filter fun w => hasVisibleChar w.1 && decide (0 < w.2)

/-- Aggregate of one strategy's accepted observations: the joined text
and the arithmetic mean of the accepted confidences, `("", 0)` when no
observation is accepted. -/
def strategyResult (data : List (String × ℤ)) : String × ℚ :=
  let ws := stratAccepted data
  let words := ws.map Prod.fst
  let confidences := ws.map Prod.snd
  if words.isEmpty || confidences.isEmpty then ("", 0)
  else
    (joinSpace words, ((confidences.map fun (c : ℤ) => (c : ℚ)).sum) / confidences.length)

/-- One iteration of the strategy loop of
`extract_text_multi_strategy` (lines 584-608): a raised OCR call
(`none`) is skipped; otherwise the accepted words and confidences are
collected, a strategy with none is skipped, and the best result is
replaced when this strategy's average confidence strictly exceeds
it. -/
def consensusStep (best : String × ℚ) (o : Option (List (String × ℤ))) :
    String × ℚ :=
  match o with
  | none => best
  | some data =>
    let ws := stratAccepted data
    let words := ws.map Prod.fst
    let confidences := ws.map Prod.snd
    if words.isEmpty || confidences.isEmpty then best
    else
      let text := joinSpace words
      let avg : ℚ := ((confidences.map fun (c : ℤ) => (c : ℚ)).sum) / confidences.length
      if best.2 < avg then (text, avg) else best

/-- `OCRProcessor.extract_text_multi_strategy` (lines 578-614) as a
function of the per-candidate OCR outcomes: fold `consensusStep` over
the strategies, starting from `("", 0.0)`. -/
def extract_text_multi_strategy (strats : List (Option (List (String × ℤ)))) :
    String × ℚ :=
  strats.foldl consensusStep ("", 0)

/-- Keep the result with the strictly larger average confidence
(ties keep the earlier one). -/
def bestStep (b r : String × ℚ) : String × ℚ :=
  if b.2 < r.2 then r else b

/-- The per-strategy summary a raised OCR call contributes: the empty
result; otherwise the strategy's `strategyResult`. -/
def toStrategyResult (o : Option (List (String × ℤ))) : String × ℚ :=
  (o.map strategyResult).getD ("", 0)

/-- Consensus computation following the claim's words only (claim C8):
a token is accepted purely by `confidence` strictly above the noise
floor (the floor in the source is 0), with no condition on the token
text itself; the best strategy is then selected by maximal average
with earlier-strategy tie-break.  Used to compare the claim against
the source's `extract_text_multi_strategy`. -/
def claimConsensus (strats : List (Option (List (String × ℤ)))) : String × ℚ :=
  (strats.map fun o =>
    match o with
    | none => ("", (0 : ℚ))
    | some data =>
      let ws := data.filter fun w => decide (0 < w.2)
      if ws.isEmpty then ("", 0)
      else (joinSpace (ws.map Prod.fst), ((ws.map fun (w : String × ℤ) => (w.2 : ℚ)).sum) / ws.length)
  ).foldl bestStep ("", 0)

/-! ## Preprocessing at the file level (OCRProcessor.preprocess_image,
src/search.py lines 541-576, and the cleanup loop of
extract_text_multi_strategy, lines 610-612)

The filesystem and library failures are modelled by their observable
outcomes: whether `cv2.imread` decoded the input (`decodeOk`), and
whether one of the three strategies raised while being generated
(`raiseAt`; files of earlier strategies have already been written via
`cv2.imwrite` / `save` when a later strategy raises). -/

/-- `config.screenshot_path` (line 51). -/
def screenshot_path : String := "/tmp/circle_to_search_capture.png"

/-- Temp file of strategy 1, `config.temp_dir / "ocr_adaptive.png"`. -/
def ocr_adaptive_path : String := "/tmp/ocr_adaptive.png"

/-- Temp file of strategy 2, `config.temp_dir / "ocr_otsu.png"`. -/
def ocr_otsu_path : String := "/tmp/ocr_otsu.png"

/-- Temp file of strategy 3, `config.temp_dir / "ocr_enhanced.png"`. -/
def ocr_enhanced_path : String := "/tmp/ocr_enhanced.png"

/-- The three candidate files written by the strategies, in generation
order. -/
def strategy_paths : List String := [ocr_adaptive_path, ocr_otsu_path, ocr_enhanced_path]

/-- Observable outcome of the external libraries during one run of
`preprocess_image`: did `cv2.imread` decode the input, and did some
strategy raise (the first raising strategy, if any). -/
structure PrepOutcome where
  decodeOk : Bool
  raiseAt : Option (Fin 3)
deriving DecidableEq

/-- Effect of one run of `preprocess_image`: which candidate files were
written to the temp directory, and which list of paths was returned to
the caller. -/
structure PrepResult where
  filesWritten : List String
  returned : List String
deriving DecidableEq

/-- `OCRProcessor.preprocess_image` (lines 541-576) at the file level:

* if `cv2.imread` returns `None`, the original `image_path` is
  returned as the sole candidate (line 547) and nothing is written;
* if strategy `k` raises, the files of strategies before `k` have
  already been written, the `except` branch returns `[image_path]`
  (line 574) and the written files are abandoned;
* otherwise all three candidate files are written and returned. -/
def preprocess_image (input : String) (o : PrepOutcome) : PrepResult :=
  if o.decodeOk = false then ⟨[], [input]⟩
  else
    match o.raiseAt with
    | some k => ⟨strategy_paths.take k.val, [input]⟩
    | none => ⟨strategy_paths, strategy_paths⟩

/-- The cleanup loop at the end of `extract_text_multi_strategy`
(lines 610-612): every returned path different from the input is
unlinked.  The value is the list of files written during preprocessing
that still exist in the temp directory afterwards. -/
def extract_cleanup_remaining (input : String) (o : PrepOutcome) : List String :=
  let r := preprocess_image input o
  r.filesWritten.filter fun p => !(r.returned.contains p && p != input)

/-- Composition of `preprocess_image` and the OCR loop of
`extract_text_multi_strategy`: the OCR capability is run on every
returned candidate path (`ocr` gives its outcome per path) and the
consensus is computed from those outcomes. -/
def extract_with_outcome (o : PrepOutcome)
    (ocr : String → Option (List (String × ℤ))) : String × ℚ :=
  extract_text_multi_strategy ((preprocess_image screenshot_path o).returned.map ocr)

/-! ## Capture tool chain (capture_with_command_line_tools,
src/search.py lines 492-535, and capture_screen_before_overlay,
lines 465-489)

Each catalogued tool's interaction with the system is modelled by its
observable outcome: whether `shutil.which` finds its executable
(`present`), whether `subprocess.run` returns without
`CalledProcessError`/`TimeoutExpired` (`runOk`), and whether the
output file exists with non-zero size after the invocation
(`fileOk`). -/

/-- Outcome of attempting one capture tool. -/
structure ToolRun where
  present : Bool
  runOk : Bool
  fileOk : Bool
deriving DecidableEq

/-- A tool is accepted by the loop body exactly when its executable is
found, the process exits normally within the timeout, and the output
file exists with non-zero size. -/
def toolAccepted (t : ToolRun) : Bool := t.present && t.runOk && t.fileOk

/-- `capture_with_command_line_tools` (lines 492-535): iterate over the
static tool list in order; skip tools whose executable is missing
without invoking them; invoke the others; continue on process failure,
timeout, or a missing/empty output file; stop at the first acceptance.
Returns the accepted tool's name (if any) and the names of all tools
that were actually invoked, in order. -/
def capture_with_command_line_tools :
    List (String × ToolRun) → Option String × List String
  | [] => (none, [])
  | (n, t) :: rest =>
    if t.present then
      if t.runOk && t.fileOk then (some n, [n])
      else
        let r := capture_with_command_line_tools rest
        (r.1, n :: r.2)
    else capture_with_command_line_tools rest

/-- The static tool catalogue of lines 495-518, by tool name, in source
order: the GNOME DBus screenshot call, gnome-screenshot, grim (a
Wayland compositor tool), spectacle, then the X11 tools scrot and
import. -/
def tool_catalogue : List String :=
  ["gnome-dbus", "gnome-screenshot", "grim", "spectacle", "scrot", "import"]

/-- Pair every catalogued tool with its environment outcome. -/
def catalogueWith (env : String → ToolRun) : List (String × ToolRun) :=
  tool_catalogue.map fun n => (n, env n)

/-- Modelled from the spec: the `display_server_requirement` metadata of
the CaptureToolSpec catalogue (spec section 4.2), absent from the
source.  Per the catalogue comments, grim serves Wayland compositors
only. -/
def waylandOnly : String → Bool := fun n => n == "grim"

/-- Modelled from the spec: the X11-only legacy tools of the catalogue
(spec section 4.2), absent from the source. -/
def x11Only : String → Bool := fun n => n == "scrot" || n == "import"

/-- `capture_screen_before_overlay` (lines 465-489): on a non-Wayland
session try `mss` first (its outcome is `mssOk`); on Wayland, or when
`mss` raised, fall back to the command-line tool chain.  Returns the
provenance of the captured image and the list of invoked command-line
tools. -/
def capture_screen_before_overlay (wayland : Bool) (mssOk : Bool)
    (tools : List (String × ToolRun)) : Option String × List String :=
  if !wayland && mssOk then (some "mss", [])
  else capture_with_command_line_tools tools

/-! ## Selected-area capture (EnhancedOverlay.capture_selected_area,
src/search.py lines 343-352)

Images are pixel matrices: a list of rows of pixel values.  The source
crops `screenshot_pixmap` to the integer bounding rectangle of the
drawn path with `QPixmap.copy(x, y, w, h)` — a plain rectangular crop. -/

/-- Pixel lookup with a default of 0 outside the matrix. -/
def pixelAt (img : List (List ℕ)) (x y : ℕ) : ℕ :=
  (img.getD y []).getD x 0

/-- `QPixmap.copy(x, y, w, h)` for a crop rectangle lying inside the
pixmap: keep `h` rows starting at `y`, and from each `w` pixels
starting at `x`. -/
def cropImage (img : List (List ℕ)) (x y w h : ℕ) : List (List ℕ) :=
  ((img.drop y).take h).map fun row => (row.drop x).take w

/-- Axis-aligned bounding rectangle `(x, y, w, h)` of a list of points,
as `QPainterPath.boundingRect` computes it for a polyline through
integer points. -/
def boundingRect (pts : List (ℤ × ℤ)) : ℤ × ℤ × ℤ × ℤ :=
  match pts with
  | [] => (0, 0, 0, 0)
  | p :: rest =>
    let x0 := rest.foldl (fun a q => min a q.1) p.1
    let y0 := rest.foldl (fun a q => min a q.2) p.2
    let x1 := rest.foldl (fun a q => max a q.1) p.1
    let y1 := rest.foldl (fun a q => max a q.2) p.2
    (x0, y0, x1 - x0, y1 - y0)

/-- `EnhancedOverlay.capture_selected_area` (lines 343-352):
`x, y, w, h = [max(0, int(val)) for val in rect.getRect()]` followed by
`screenshot_pixmap.copy(x, y, w, h)` when both `w > 0` and `h > 0`;
otherwise no crop is saved.  `Int.toNat` is `max 0` composed with the
integer conversion. -/
def capture_selected_area (img : List (List ℕ)) (rect : ℤ × ℤ × ℤ × ℤ) :
    Option (List (List ℕ)) :=
  let x := rect.1.toNat
  let y := rect.2.1.toNat
  let w := rect.2.2.1.toNat
  let h := rect.2.2.2.toNat
  if 0 < w ∧ 0 < h then some (cropImage img x y w h) else none

/-! Point-in-polygon coverage test.  Modelled from the spec
(section 4.4): the source delegates filling to the graphics library and
never tests polygon membership itself; the spec's "standard
point-in-polygon rule" is embedded as the even-odd crossing-number
rule, with exact integer arithmetic. -/

/-- Does the horizontal ray from `p` towards +x cross the open edge
`(a, b)`?  Standard even-odd crossing test, with the division replaced
by a sign-adjusted cross multiplication. -/
def rayHits (p a b : ℤ × ℤ) : Bool :=
  (decide (p.2 < a.2) != decide (p.2 < b.2)) &&
    (if a.2 < b.2 then
      decide ((p.1 - a.1) * (b.2 - a.2) < (p.2 - a.2) * (b.1 - a.1))
    else
      decide ((p.2 - a.2) * (b.1 - a.1) < (p.1 - a.1) * (b.2 - a.2)))

/-- Is `p` on the closed segment from `a` to `b`? -/
def onSegment (p a b : ℤ × ℤ) : Bool :=
  decide ((b.1 - a.1) * (p.2 - a.2) = (b.2 - a.2) * (p.1 - a.1)) &&
    decide (min a.1 b.1 ≤ p.1 ∧ p.1 ≤ max a.1 b.1 ∧
            min a.2 b.2 ≤ p.2 ∧ p.2 ≤ max a.2 b.2)

/-- Edges of the closed polygon through `pts`, including the wrap-around
edge from the last vertex back to the first. -/
def polyEdges (pts : List (ℤ × ℤ)) : List ((ℤ × ℤ) × (ℤ × ℤ)) :=
  pts.zip (pts.rotate 1)

/-- Even-odd interior test for the closed polygon through `pts`. -/
def insidePolygon (pts : List (ℤ × ℤ)) (p : ℤ × ℤ) : Bool :=
  decide (((polyEdges pts).countP fun e => rayHits p e.1 e.2) % 2 = 1)

/-- `p` lies strictly outside the closed polygon through `pts`: neither
in its even-odd interior nor on any of its edges. -/
def strictlyOutside (pts : List (ℤ × ℤ)) (p : ℤ × ℤ) : Bool :=
  !insidePolygon pts p && !((polyEdges pts).any fun e => onSegment p e.1 e.2)

/-! ## Overlay drawing session (EnhancedOverlay.mousePressEvent,
mouseMoveEvent, mouseReleaseEvent, src/search.py lines 287-312)

The QPainterPath element list is modelled by the list of its points:
`QPainterPath(start)` has one element, each `lineTo` appends one —
unless the target equals the current last element, in which case Qt's
`lineTo` does nothing. -/

/-- `QPainterPath.lineTo`: append the point unless it equals the
current last element. -/
def lineTo (pts : List (ℤ × ℤ)) (p : ℤ × ℤ) : List (ℤ × ℤ) :=
  if pts.getLast? = some p then pts else pts ++ [p]

/-- `QPainterPath.closeSubpath`: join the path back to its starting
point, if it is not already closed. -/
def closeSubpath (pts : List (ℤ × ℤ)) : List (ℤ × ℤ) :=
  match pts.head?, pts.getLast? with
  | some h, some l => if h = l then pts else pts ++ [h]
  | _, _ => pts

/-- Session state of `EnhancedOverlay` relevant to the selection
pipeline: the drawing flag, the accumulated path elements, the
selection flag, whether `capture_selected_area` was invoked together
with the crop it saved (if any), and whether the application was quit
(the cancellation branch). -/
structure OverlayState where
  isDrawing : Bool
  pathPts : List (ℤ × ℤ)
  selectionMade : Bool
  captureInvoked : Bool
  savedCrop : Option (List (List ℕ))
  quitApp : Bool
deriving DecidableEq

/-- Pointer events delivered by the GUI event loop (left button). -/
inductive PointerEvent
  | press (p : ℤ × ℤ)
  | move (p : ℤ × ℤ)
  | release
deriving DecidableEq

/-- Initial overlay state. -/
def initOverlay : OverlayState :=
  { isDrawing := false, pathPts := [], selectionMade := false,
    captureInvoked := false, savedCrop := none, quitApp := false }

/-- The mouse handlers of lines 287-312:

* press: start drawing with a fresh one-element path;
* move: while drawing, `lineTo` the new position;
* release while drawing: if the path has fewer than 3 elements
  (`self.path.elementCount() < 3`), close the overlay and quit — the
  cancellation branch; otherwise mark the selection, close the subpath
  and capture the area of its bounding rectangle. -/
def overlayStep (img : List (List ℕ)) (s : OverlayState) :
    PointerEvent → OverlayState
  | PointerEvent.press p =>
    { s with isDrawing := true, selectionMade := false, pathPts := [p] }
  | PointerEvent.move p =>
    if s.isDrawing then { s with pathPts := lineTo s.pathPts p } else s
  | PointerEvent.release =>
    if s.isDrawing then
      if s.pathPts.length < 3 then
        { s with isDrawing := false, quitApp := true }
      else
        let closed := closeSubpath s.pathPts
        { s with isDrawing := false, selectionMade := true, pathPts := closed,
                 captureInvoked := true,
                 savedCrop := capture_selected_area img (boundingRect closed) }
    else s

/-- Run a stream of pointer events from the initial state. -/
def runOverlay (img : List (List ℕ)) (evs : List PointerEvent) : OverlayState :=
  evs.foldl (overlayStep img) initOverlay

/-! ## Pixel-level preprocessing strategies
(OCRProcessor.preprocess_image, src/search.py lines 541-576)

The three library transforms applied to the decoded crop are embedded
over integer pixel matrices.  Colour pixels are `(r, g, b)` triples of
8-bit values; grayscale pixels are 8-bit values.

* `cv2.cvtColor(img, COLOR_BGR2GRAY)` uses OpenCV's fixed-point ITU-R
  601 luma: `(4899 r + 9617 g + 1868 b + 2^13) >> 14`.
* `cv2.adaptiveThreshold(gray, 255, ADAPTIVE_THRESH_GAUSSIAN_C,
  THRESH_BINARY, 11, 2)` compares each pixel against the Gaussian
  11×11 weighted neighbourhood mean (replicated border) minus 2.
* `cv2.threshold(gray, 0, 255, THRESH_BINARY + THRESH_OTSU)` computes
  Otsu's threshold from the histogram and binarizes at it.
* `ImageEnhance.Contrast(img.convert('L')).enhance(2.0)` blends the
  L-image with the constant image of its rounded mean with factor 2,
  clipping to 0..255.
-/

/-- OpenCV fixed-point BGR→gray luma of one `(r, g, b)` pixel. -/
def cvtGrayPix (p : ℕ × ℕ × ℕ) : ℕ :=
  (4899 * p.1 + 9617 * p.2.1 + 1868 * p.2.2 + 8192) / 16384

/-- `cv2.cvtColor(img, cv2.COLOR_BGR2GRAY)` (line 549). -/
def cvtColorGray (img : List (List (ℕ × ℕ × ℕ))) : List (List ℕ) :=
  img.map (List.map cvtGrayPix)

/-- Clamp an integer coordinate into `0 .. n-1` (replicated border). -/
def clampTo (n : ℕ) (i : ℤ) : ℕ :=
  (min (max i 0) ((n : ℤ) - 1)).toNat

/-- Pixel access with `BORDER_REPLICATE` semantics. -/
def grayAtR (img : List (List ℕ)) (x y : ℤ) : ℕ :=
  let row := img.getD (clampTo img.length y) []
  row.getD (clampTo row.length x) 0

/-- One-dimensional Gaussian weights for `ksize = 11` (sigma 2.0, the
value OpenCV derives from the block size), as integer numerators over
`gaussTotal`.  The library's weights are irrational floating-point
values; these exact rationals approximate them.  Every theorem below
evaluates the blur only on constant regions, where any normalized
kernel — these weights and the library's alike — returns the constant
itself, so no conclusion depends on the approximation. -/
def gaussK : List ℤ :=
  [439, 1353, 3247, 6065, 8825, 10000, 8825, 6065, 3247, 1353, 439]

/-- Normalizer of `gaussK`: its sum. -/
def gaussTotal : ℤ := 49858

/-- Numerator of the Gaussian 11×11 weighted sum around `(x, y)` (the
separable kernel `gaussK × gaussK`, to be divided by
`gaussTotal ^ 2`), with replicated borders. -/
def gaussNum (img : List (List ℕ)) (x y : ℕ) : ℤ :=
  (List.range 11).foldl
    (fun acc j =>
      acc + (List.range 11).foldl
        (fun acc2 i =>
          acc2 + gaussK.getD i 0 * gaussK.getD j 0 *
            (grayAtR img ((x : ℤ) + i - 5) ((y : ℤ) + j - 5) : ℤ))
        0)
    0

/-- The rounded Gaussian neighbourhood mean at `(x, y)`:
`round(S / T)` computed as `⌊(2 S + T) / (2 T)⌋` with `T` positive. -/
def gaussMean (img : List (List ℕ)) (x y : ℕ) : ℤ :=
  (2 * gaussNum img x y + gaussTotal * gaussTotal) / (2 * (gaussTotal * gaussTotal))

/-- Strategy 1 (lines 552-553): adaptive Gaussian threshold, block
size 11, delta 2, `THRESH_BINARY` with max value 255: a pixel becomes
255 iff it exceeds its neighbourhood mean minus 2. -/
def adaptiveThreshold (img : List (List ℕ)) : List (List ℕ) :=
  img.mapIdx fun y row =>
    row.mapIdx fun x _ =>
      if gaussMean img x y - 2 < (grayAtR img (x : ℤ) (y : ℤ) : ℤ) then 255 else 0

/-- Histogram count of value `v` in a grayscale image. -/
def histCount (img : List (List ℕ)) (v : ℕ) : ℕ :=
  (img.map fun row => row.countP fun p => p == v).sum

/-- Exact fraction, the representation used below to carry the
double-precision arithmetic of OpenCV's Otsu computation exactly.  All
fractions constructed in `otsuThreshold` keep a positive denominator
(divisions there only ever divide by fractions with positive numerator
and denominator), so `Frac.blt` is the numeric strict order. -/
structure Frac where
  num : ℤ
  den : ℤ
deriving DecidableEq

/-- Build a fraction, normalizing a zero numerator to `0 / 1` (the
represented rational value is unchanged; this only keeps the terms
small). -/
def Frac.mk0 (n d : ℤ) : Frac := if n = 0 then ⟨0, 1⟩ else ⟨n, d⟩

/-- Embed a natural number. -/
def Frac.ofNat (n : ℕ) : Frac := Frac.mk0 (n : ℤ) 1

/-- Fraction addition. -/
def Frac.add (a b : Frac) : Frac :=
  Frac.mk0 (a.num * b.den + b.num * a.den) (a.den * b.den)

/-- Fraction subtraction. -/
def Frac.sub (a b : Frac) : Frac :=
  Frac.mk0 (a.num * b.den - b.num * a.den) (a.den * b.den)

/-- Fraction multiplication. -/
def Frac.mul (a b : Frac) : Frac := Frac.mk0 (a.num * b.num) (a.den * b.den)

/-- Fraction division. -/
def Frac.div (a b : Frac) : Frac := Frac.mk0 (a.num * b.den) (a.den * b.num)

/-- Strict order, valid for positive denominators. -/
def Frac.blt (a b : Frac) : Bool := decide (a.num * b.den < b.num * a.den)

/-- Minimum with respect to `Frac.blt`. -/
def Frac.bmin (a b : Frac) : Frac := if Frac.blt a b then a else b

/-- Maximum with respect to `Frac.blt`. -/
def Frac.bmax (a b : Frac) : Frac := if Frac.blt a b then b else a

/-- Histogram of `img` as fractions. -/
def otsuH (img : List (List ℕ)) : ℕ → Frac := fun i => Frac.ofNat (histCount img i)

/-- The global mean `mu` of OpenCV's Otsu computation. -/
def otsuMu (img : List (List ℕ)) (size : Frac) : Frac :=
  Frac.div
    ((List.range 256).foldl
      (fun a i => Frac.add a (Frac.mul (Frac.ofNat i) (otsuH img i))) ⟨0, 1⟩)
    size

/-- One iteration of the Otsu histogram pass, carrying
`(q1, mu1, max_sigma, max_val)`: skip bins where either class weight
is within `FLT_EPSILON = 2^-23` of 0 or 1, otherwise update the best
between-class variance. -/
def otsuStep (size mu : Frac) (h : ℕ → Frac) (st : Frac × Frac × Frac × ℕ)
    (i : ℕ) : Frac × Frac × Frac × ℕ :=
  let q1 := st.1
  let mu1 := st.2.1
  let maxSigma := st.2.2.1
  let maxVal := st.2.2.2
  let pi := Frac.div (h i) size
  let mu1a := Frac.mul mu1 q1
  let q1n := Frac.add q1 pi
  let q2 := Frac.sub ⟨1, 1⟩ q1n
  let eps : Frac := ⟨1, 8388608⟩
  if Frac.blt (Frac.bmin q1n q2) eps ||
      Frac.blt (Frac.sub ⟨1, 1⟩ eps) (Frac.bmax q1n q2) then
    (q1n, mu1a, maxSigma, maxVal)
  else
    let mu1n := Frac.div (Frac.add mu1a (Frac.mul (Frac.ofNat i) pi)) q1n
    let mu2 := Frac.div (Frac.sub mu (Frac.mul q1n mu1n)) q2
    let dd := Frac.sub mu1n mu2
    let sigma := Frac.mul (Frac.mul q1n q2) (Frac.mul dd dd)
    if Frac.blt maxSigma sigma then (q1n, mu1n, sigma, i)
    else (q1n, mu1n, maxSigma, maxVal)

/-- Otsu's threshold as OpenCV's `getThreshVal_Otsu_8u` computes it: a
single pass of `otsuStep` over the 256 histogram bins, returning the
bin of the maximal between-class variance (0 if no bin qualifies).
The double-precision arithmetic of the library is carried exactly as
fractions. -/
def otsuThreshold (img : List (List ℕ)) : ℕ :=
  let sizeN : ℕ := (img.map List.length).sum
  if sizeN = 0 then 0
  else
    let size := Frac.ofNat sizeN
    ((List.range 256).foldl (otsuStep size (otsuMu img size) (otsuH img))
      (⟨0, 1⟩, ⟨0, 1⟩, ⟨0, 1⟩, 0)).2.2.2

/-- Strategy 2 (lines 558-559): global binarization at Otsu's
threshold, `THRESH_BINARY` with max value 255. -/
def otsuBinarize (img : List (List ℕ)) : List (List ℕ) :=
  let t := otsuThreshold img
  img.map (List.map fun v => if t < v then 255 else 0)

/-- PIL `convert('L')` luma of one `(r, g, b)` pixel:
`(19595 r + 38470 g + 7471 b) >> 16`. -/
def pilLPix (p : ℕ × ℕ × ℕ) : ℕ :=
  (19595 * p.1 + 38470 * p.2.1 + 7471 * p.2.2) / 65536

/-- `Image.open(...).convert('L')` (line 565): PIL grayscale. -/
def pilL (img : List (List (ℕ × ℕ × ℕ))) : List (List ℕ) :=
  img.map (List.map pilLPix)

/-- `int(ImageStat.Stat(image).mean[0] + 0.5)`: the rounded mean pixel
value used by `ImageEnhance.Contrast` for its degenerate image.
`⌊S / C + 1 / 2⌋` computed as `(2 S + C) / (2 C)` on non-negative
integers. -/
def pilMeanInt (img : List (List ℕ)) : ℤ :=
  let cnt : ℕ := (img.map List.length).sum
  if cnt = 0 then 0
  else (2 * ((img.map List.sum).sum : ℤ) + (cnt : ℤ)) / (2 * (cnt : ℤ))

/-- Clip an integer to the 8-bit range, as PIL's blend loop does. -/
def clamp255 (z : ℤ) : ℕ :=
  (min 255 (max 0 z)).toNat

/-- Strategy 3 (lines 565-569): `ImageEnhance.Contrast(...).enhance(2.0)`
on the PIL L-image: every pixel `v` becomes
`clip(mean + 2 (v - mean))` with `mean` the rounded image mean. -/
def enhanceContrast (img : List (List ℕ)) : List (List ℕ) :=
  let m := pilMeanInt img
  img.map (List.map fun (v : ℕ) => clamp255 (m + 2 * ((v : ℤ) - m)))

/-- Pixel contents of the three candidate images written by
`preprocess_image` on a successfully decoded input, in generation
order: adaptive threshold and Otsu binarization of the cv2 grayscale,
and contrast enhancement of the PIL L-image of the original file. -/
def preprocess_candidates (img : List (List (ℕ × ℕ × ℕ))) : List (List (List ℕ)) :=
  let gray := cvtColorGray img
  [adaptiveThreshold gray, otsuBinarize gray, enhanceContrast (pilL img)]

/-- Photometric inversion of a grayscale image (a transform the spec
prescribes as strategy 4; used to state claim C6). -/
def invertImage (img : List (List ℕ)) : List (List ℕ) :=
  img.map (List.map fun v => 255 - v)

/-! ## Concrete inputs used by the counterexamples and witnesses -/

/-- A uniform mid-gray 3×3 RGB image: every pixel is `(128, 128, 128)`. -/
def u128 : List (List (ℕ × ℕ × ℕ)) := List.replicate 3 (List.replicate 3 (128, 128, 128))

/-- The grayscale of `u128`: every pixel is 128. -/
def g128 : List (List ℕ) := List.replicate 3 (List.replicate 3 128)

/-- A uniform white 3×3 grayscale image. -/
def w255 : List (List ℕ) := List.replicate 3 (List.replicate 3 255)

/-- An environment where every tool executable is installed, the two
GNOME tools fail at run time, and grim succeeds. -/
def env0 : String → ToolRun := fun n =>
  if n == "grim" then ⟨true, true, true⟩ else ⟨true, false, false⟩

/-- A 6×6 uniform background image for the overlay session runs. -/
def imgBg : List (List ℕ) := List.replicate 6 (List.replicate 6 1)

/-- A triangular selection path with vertices `(0,0)`, `(4,0)`,
`(0,4)`. -/
def triPath : List (ℤ × ℤ) := [(0, 0), (4, 0), (0, 4)]

/-- A 5×5 image whose pixel at `(x, y)` has value `x + 10 y`, so that
distinct pixels have distinct values. -/
def img5 : List (List ℕ) := (List.range 5).map fun y => (List.range 5).map fun x => x + 10 * y

/-- The 4×4 rectangular crop of `img5` at the bounding box of
`triPath`. -/
def triCrop : List (List ℕ) :=
  [[0, 1, 2, 3], [10, 11, 12, 13], [20, 21, 22, 23], [30, 31, 32, 33]]

/-! ## Helper lemmas -/

/-- `getD` after `drop` shifts the index. -/
lemma getD_drop {α : Type} (l : List α) (n : ℕ) :
    ∀ (m : ℕ) (d : α), (l.drop n).getD m d = l.getD (n + m) d := by
  induction l generalizing n with
  | nil => intro m d; cases n <;> rfl
  | cons a l ih =>
    intro m d
    cases n with
    | zero => rw [Nat.zero_add]; rfl
    | succ n =>
      rw [Nat.succ_add]
      show (l.drop n).getD m d = l.getD (n + m) d
      exact ih n m d

/-- `getD` inside the taken prefix is unchanged. -/
lemma getD_take {α : Type} (l : List α) :
    ∀ (n m : ℕ) (d : α), m < n → (l.take n).getD m d = l.getD m d := by
  induction l with
  | nil => intro n m d _; cases n <;> rfl
  | cons a l ih =>
    intro n m d hmn
    cases n with
    | zero => omega
    | succ n =>
      cases m with
      | zero => rfl
      | succ m => exact ih n m d (by omega)

/-- `getD` of a mapped list, for an in-bounds index. -/
lemma getD_map {α β : Type} (f : α → β) (l : List α) :
    ∀ (n : ℕ) (d : β) (d2 : α), n < l.length → (l.map f).getD n d = f (l.getD n d2) := by
  induction l with
  | nil => intro n d d2 h; simp at h
  | cons a l ih =>
    intro n d d2 h
    cases n with
    | zero => rfl
    | succ n => exact ih n d d2 (by simpa using h)

/-! ## C2: mask and crop -/

/-- C2 (counterexample): on `img5` with the triangular path `triPath`,
`capture_selected_area` returns the plain rectangular crop `triCrop`;
the points `(2, 3)` and `(3, 2)` lie strictly outside the closed
triangle yet inside the crop, and they carry the distinct source
values 32 and 23 — so no designated empty marker value exists for the
pixels strictly outside the polygon, refuting the masking part of the
claim. -/
theorem mask_crop_counterexample :
    capture_selected_area img5 (boundingRect (closeSubpath triPath)) = some triCrop ∧
    strictlyOutside triPath (2, 3) = true ∧
    strictlyOutside triPath (3, 2) = true ∧
    pixelAt triCrop 2 3 = 32 ∧
    pixelAt triCrop 3 2 = 23 ∧
    ¬ ∃ e, ∀ i j : ℕ, i < 4 → j < 4 →
      strictlyOutside triPath ((i : ℤ), (j : ℤ)) = true → pixelAt triCrop i j = e := by
  refine ⟨by decide, by decide, by decide, rfl, rfl, ?_⟩
  rintro ⟨e, h⟩
  have h1 := h 2 3 (by norm_num) (by norm_num) (by decide)
  have h2 := h 3 2 (by norm_num) (by norm_num) (by decide)
  have e1 : pixelAt triCrop 2 3 = 32 := rfl
  have e2 : pixelAt triCrop 3 2 = 23 := rfl
  rw [e1] at h1
  rw [e2] at h2
  omega

/-- C2 (amended): for every image and every bounding rectangle
`(x, y, w, h)` with positive extent lying inside the image,
`capture_selected_area` produces a crop of exactly `w × h` pixels and
every output pixel — inside or outside the drawn polygon alike —
copies the source pixel at the offset coordinate; no pixel is replaced
by an empty marker. -/
theorem capture_selected_area_amended :
    ∀ (img : List (List ℕ)) (x y w h : ℤ),
      0 ≤ x → 0 ≤ y → 0 < w → 0 < h →
      y.toNat + h.toNat ≤ img.length →
      (∀ row ∈ img, x.toNat + w.toNat ≤ row.length) →
      ∃ out, capture_selected_area img (x, y, w, h) = some out ∧
        out.length = h.toNat ∧ (∀ row ∈ out, row.length = w.toNat) ∧
        ∀ i j : ℕ, i < w.toNat → j < h.toNat →
          pixelAt out i j = pixelAt img (x.toNat + i) (y.toNat + j) := by
  intro img x y w h hx hy hw hh hH hW
  have hw0 : 0 < w.toNat := by omega
  have hh0 : 0 < h.toNat := by omega
  refine ⟨cropImage img x.toNat y.toNat w.toNat h.toNat, ?_, ?_, ?_, ?_⟩
  · simp only [capture_selected_area]
    rw [if_pos ⟨hw0, hh0⟩]
  · simp only [cropImage, List.length_map, List.length_take, List.length_drop]
    omega
  · intro row hrow
    simp only [cropImage, List.mem_map] at hrow
    obtain ⟨r, hr, hrw⟩ := hrow
    rw [← hrw]
    simp only [List.length_take, List.length_drop]
    have := hW r (List.drop_subset _ _ (List.take_subset _ _ hr))
    omega
  · intro i j hi hj
    have hjlen : j < ((img.drop y.toNat).take h.toNat).length := by
      simp only [List.length_take, List.length_drop]
      omega
    unfold pixelAt cropImage
    rw [getD_map _ _ j [] [] hjlen, getD_take _ _ j [] (by omega), getD_drop,
      getD_take _ _ i 0 hi, getD_drop]

/-- Witness for `capture_selected_area_amended` at `img5` with the
4×4 rectangle at the origin. -/
theorem capture_selected_area_amended_witness :
    ∃ out, capture_selected_area img5 (0, 0, 4, 4) = some out ∧
      out.length = (4 : ℤ).toNat ∧ (∀ row ∈ out, row.length = (4 : ℤ).toNat) ∧
      ∀ i j : ℕ, i < (4 : ℤ).toNat → j < (4 : ℤ).toNat →
        pixelAt out i j = pixelAt img5 ((0 : ℤ).toNat + i) ((0 : ℤ).toNat + j) :=
  capture_selected_area_amended img5 0 0 4 4 (by norm_num) (by norm_num)
    (by norm_num) (by norm_num) (by decide) (by decide)

/-! ## C3: cancellation short-circuit -/

/-- While drawing, a run of move events only extends the path via
`lineTo`. -/
lemma overlay_moves (img : List (List ℕ)) (ps : List (ℤ × ℤ)) :
    ∀ s : OverlayState, s.isDrawing = true →
      (ps.map PointerEvent.move).foldl (overlayStep img) s =
        { s with pathPts := ps.foldl lineTo s.pathPts } := by
  induction ps with
  | nil => intro s _; rfl
  | cons p rest ih =>
    intro s hd
    simp only [List.map_cons, List.foldl_cons]
    have hstep : overlayStep img s (PointerEvent.move p) =
        { s with pathPts := lineTo s.pathPts p } := by
      simp [overlayStep, hd]
    rw [hstep, ih _ (by simp [hd])]

/-- C3 (counterexample): the drawing session press `(0,0)`, move
`(5,5)`, move `(0,0)`, release accumulates the path
`[(0,0), (5,5), (0,0)]`, which has only 2 distinct points; yet because
`mouseReleaseEvent` tests `elementCount() < 3` — path elements, not
distinct points — the release invokes `capture_selected_area` and a
crop is saved, refuting the claim as stated. -/
theorem release_distinct_counterexample :
    ([((0 : ℤ), (0 : ℤ)), (5, 5), (0, 0)] : List (ℤ × ℤ)).dedup.length = 2 ∧
    (runOverlay imgBg [PointerEvent.press (0, 0), PointerEvent.move (5, 5),
      PointerEvent.move (0, 0), PointerEvent.release]).pathPts =
      [(0, 0), (5, 5), (0, 0)] ∧
    (runOverlay imgBg [PointerEvent.press (0, 0), PointerEvent.move (5, 5),
      PointerEvent.move (0, 0), PointerEvent.release]).captureInvoked = true ∧
    (runOverlay imgBg [PointerEvent.press (0, 0), PointerEvent.move (5, 5),
      PointerEvent.move (0, 0), PointerEvent.release]).savedCrop ≠ none := by
  refine ⟨by decide, by decide, by decide, by decide⟩

/-- C3 (amended): for every drawing session whose accumulated path has
fewer than 3 elements (pointer positions after collapsing consecutive
duplicates), the release neither invokes `capture_selected_area` nor
saves a crop, no selection is marked, and the session ends by quitting
the application — a non-error cancellation. -/
theorem release_cancellation_amended :
    ∀ (img : List (List ℕ)) (p : ℤ × ℤ) (ps : List (ℤ × ℤ)),
      (ps.foldl lineTo [p]).length < 3 →
      (runOverlay img
        (PointerEvent.press p :: ps.map PointerEvent.move ++
          [PointerEvent.release])).captureInvoked = false ∧
      (runOverlay img
        (PointerEvent.press p :: ps.map PointerEvent.move ++
          [PointerEvent.release])).savedCrop = none ∧
      (runOverlay img
        (PointerEvent.press p :: ps.map PointerEvent.move ++
          [PointerEvent.release])).quitApp = true ∧
      (runOverlay img
        (PointerEvent.press p :: ps.map PointerEvent.move ++
          [PointerEvent.release])).selectionMade = false := by
  intro img p ps hlen
  have h1 : overlayStep img initOverlay (PointerEvent.press p) =
      { initOverlay with isDrawing := true, selectionMade := false, pathPts := [p] } := rfl
  have hrun : runOverlay img
      (PointerEvent.press p :: ps.map PointerEvent.move ++ [PointerEvent.release]) =
      overlayStep img
        ((ps.map PointerEvent.move).foldl (overlayStep img)
          { initOverlay with isDrawing := true, selectionMade := false, pathPts := [p] })
        PointerEvent.release := by
    unfold runOverlay
    rw [List.cons_append, List.foldl_cons, h1, List.foldl_append, List.foldl_cons,
      List.foldl_nil]
  rw [hrun, overlay_moves img ps _ rfl]
  refine ⟨?_, ?_, ?_, ?_⟩ <;> simp [overlayStep, hlen, initOverlay]

/-- Witness for `release_cancellation_amended`: a two-point stroke is
cancelled without capture. -/
theorem release_cancellation_amended_witness :
    (runOverlay imgBg
      (PointerEvent.press (0, 0) :: [((1 : ℤ), (1 : ℤ))].map PointerEvent.move ++
        [PointerEvent.release])).captureInvoked = false ∧
    (runOverlay imgBg
      (PointerEvent.press (0, 0) :: [((1 : ℤ), (1 : ℤ))].map PointerEvent.move ++
        [PointerEvent.release])).savedCrop = none ∧
    (runOverlay imgBg
      (PointerEvent.press (0, 0) :: [((1 : ℤ), (1 : ℤ))].map PointerEvent.move ++
        [PointerEvent.release])).quitApp = true ∧
    (runOverlay imgBg
      (PointerEvent.press (0, 0) :: [((1 : ℤ), (1 : ℤ))].map PointerEvent.move ++
        [PointerEvent.release])).selectionMade = false :=
  release_cancellation_amended imgBg (0, 0) [(1, 1)] (by decide)

/-! ## C4 and C5: capture tool chain -/

/-- The accepted tool is the first catalogued tool whose executable is
present, whose process exits normally, and whose output file exists
non-empty. -/
lemma capture_chain_find (l : List (String × ToolRun)) :
    (capture_with_command_line_tools l).1 =
      (l.find? fun nt => toolAccepted nt.2).map Prod.fst := by
  induction l with
  | nil => rfl
  | cons nt rest ih =>
    rcases nt with ⟨n, t⟩
    by_cases hp : t.present = true
    · by_cases hr : (t.runOk && t.fileOk) = true
      · have hacc : toolAccepted t = true := by
          simp [toolAccepted, hp, Bool.and_eq_true] at hr ⊢
          exact hr
        simp [capture_with_command_line_tools, hp, hr, List.find?, hacc]
      · have hacc : toolAccepted t = false := by
          simp only [toolAccepted, hp, Bool.true_and]
          simpa using hr
        simp [capture_with_command_line_tools, hp, hr, List.find?, hacc, ih]
    · have hp2 : t.present = false := by simpa using hp
      have hacc : toolAccepted t = false := by
        simp [toolAccepted, hp2]
      simp [capture_with_command_line_tools, hp2, List.find?, hacc, ih]

/-- The invoked tools are exactly the present tools of the
not-accepted prefix, followed by the accepted tool if one exists. -/
lemma capture_chain_invoked (l : List (String × ToolRun)) :
    (capture_with_command_line_tools l).2 =
      ((l.takeWhile fun nt => !toolAccepted nt.2).filter
        fun nt => nt.2.present).map Prod.fst ++
        (((l.find? fun nt => toolAccepted nt.2).map Prod.fst).toList) := by
  induction l with
  | nil => rfl
  | cons nt rest ih =>
    rcases nt with ⟨n, t⟩
    by_cases hp : t.present = true
    · by_cases hr : (t.runOk && t.fileOk) = true
      · have hacc : toolAccepted t = true := by
          simp [toolAccepted, hp, Bool.and_eq_true] at hr ⊢
          exact hr
        simp [capture_with_command_line_tools, hp, hr, List.find?, hacc,
          List.takeWhile]
      · have hacc : toolAccepted t = false := by
          simp only [toolAccepted, hp, Bool.true_and]
          simpa using hr
        simp [capture_with_command_line_tools, hp, hr, List.find?, hacc, ih,
          List.takeWhile]
    · have hp2 : t.present = false := by simpa using hp
      have hacc : toolAccepted t = false := by
        simp [toolAccepted, hp2]
      simp [capture_with_command_line_tools, hp2, List.find?, hacc, ih,
        List.takeWhile]

/-- C5 (confirmed): the capture chain attempts tools in the fixed
catalogue order; a candidate with a missing executable, a failing or
timed-out process, or a missing/empty output file is skipped and the
chain proceeds; a candidate is accepted — stopping the iteration —
exactly when it is present, runs successfully, and leaves a non-empty
output file (`toolAccepted`); and in the two-tool scenario where the
first tool is missing and the second succeeds, the accepted image
comes from the second tool. -/
theorem capture_chain_order :
    (∀ l : List (String × ToolRun),
      (capture_with_command_line_tools l).1 =
        (l.find? fun nt => toolAccepted nt.2).map Prod.fst) ∧
    (∀ l : List (String × ToolRun),
      (capture_with_command_line_tools l).2 =
        ((l.takeWhile fun nt => !toolAccepted nt.2).filter
          fun nt => nt.2.present).map Prod.fst ++
          (((l.find? fun nt => toolAccepted nt.2).map Prod.fst).toList)) ∧
    capture_with_command_line_tools
      [("toolA", ⟨false, true, true⟩), ("toolB", ⟨true, true, true⟩)] =
      (some "toolB", ["toolB"]) :=
  ⟨capture_chain_find, capture_chain_invoked, by decide⟩

/-- C4 (counterexample): in an X11 session (`wayland = false`) where
`mss` fails, every executable is present, the GNOME tools fail, and
grim succeeds, the chain invokes — and even accepts — grim, a
Wayland-only tool: no display-server filtering takes place. -/
theorem capture_filtering_counterexample :
    waylandOnly "grim" = true ∧
    "grim" ∈ (capture_screen_before_overlay false false (catalogueWith env0)).2 ∧
    (capture_screen_before_overlay false false (catalogueWith env0)).1 = some "grim" := by
  refine ⟨rfl, ?_, ?_⟩ <;> decide

/-- Every present-but-never-accepted environment invokes the whole
catalogue. -/
lemma chain_all_failing (names : List String) (t : ToolRun)
    (hp : t.present = true) (hf : t.fileOk = false) :
    capture_with_command_line_tools (names.map fun n => (n, t)) = (none, names) := by
  induction names with
  | nil => rfl
  | cons n rest ih =>
    have hr : (t.runOk && t.fileOk) = false := by simp [hf]
    simp [capture_with_command_line_tools, hp, hr, ih]

/-- C4 (amended): the capture chain applies no display-server
filtering at all.  Whenever every catalogued executable is installed
but no invocation produces an output file, the chain invokes every
catalogued tool — the Wayland-only and the X11-only ones alike — in
catalogue order, regardless of the display-server profile; the only
environment-dependent step is that the mss grab is skipped on Wayland
(or has failed). -/
theorem capture_no_filtering_amended :
    ∀ env : String → ToolRun, (∀ n, env n = ⟨true, true, false⟩) →
    ∀ wayland mssOk : Bool, wayland = true ∨ mssOk = false →
      (capture_screen_before_overlay wayland mssOk (catalogueWith env)).2 =
        tool_catalogue := by
  intro env henv wayland mssOk hcase
  have hc : catalogueWith env = tool_catalogue.map fun n => (n, ⟨true, true, false⟩) := by
    unfold catalogueWith
    exact List.map_congr_left fun n _ => by rw [henv]
  have hchain := chain_all_failing tool_catalogue ⟨true, true, false⟩ rfl rfl
  rcases hcase with h | h <;> subst h
  · simp [capture_screen_before_overlay, hc, hchain]
  · simp [capture_screen_before_overlay, hc, hchain]

/-- Witness for `capture_no_filtering_amended` on a Wayland session
with every tool installed and failing. -/
theorem capture_no_filtering_amended_witness :
    (capture_screen_before_overlay true true
      (catalogueWith fun _n => ⟨true, true, false⟩)).2 = tool_catalogue :=
  capture_no_filtering_amended (fun _n => ⟨true, true, false⟩) (fun _n => rfl)
    true true (Or.inl rfl)

/-! ## C1: routing decision -/

/-- C1 (counterexample): for the empty consensus result and the
Translate mode, the overlay performs no search at all — it only prints
an error message — instead of the VisualSearch fallback the claim
requires for every non-VisualSearch mode. -/
theorem routing_counterexample :
    handle_search_request ("", 0) SearchType.translate = SearchAction.noAction ∧
    handle_search_request ("", 0) SearchType.translate ≠ SearchAction.visualSearch := by
  have he : extract_text_from_selection ("", 0) = none := by
    rw [extract_text_from_selection, if_neg (by simp)]
  refine ⟨?_, ?_⟩ <;> simp [handle_search_request, he]

/-- C1 (amended): an explicit VisualSearch request is honoured
unconditionally; the consensus text is accepted iff it is non-empty
with confidence strictly above `min_confidence` (40) and length at
least `min_text_length` (3) — there is no degenerate-text check; with
accepted text the decision equals the requested mode; with rejected
text, TextSearch and HomeworkSearch fall back to VisualSearch while
Translate performs no search at all. -/
theorem routing_amended : ∀ (t : String) (c : ℚ),
    handle_search_request (t, c) SearchType.image = SearchAction.visualSearch ∧
    (¬(t ≠ "" ∧ min_confidence < c ∧ min_text_length ≤ t.length) →
      handle_search_request (t, c) SearchType.text = SearchAction.visualSearch ∧
      handle_search_request (t, c) SearchType.homework = SearchAction.visualSearch ∧
      handle_search_request (t, c) SearchType.translate = SearchAction.noAction) ∧
    ((t ≠ "" ∧ min_confidence < c ∧ min_text_length ≤ t.length) →
      handle_search_request (t, c) SearchType.text = SearchAction.textSearch t ∧
      handle_search_request (t, c) SearchType.homework = SearchAction.homeworkSearch t ∧
      handle_search_request (t, c) SearchType.translate = SearchAction.translateSearch t) := by
  intro t c
  refine ⟨rfl, fun h => ?_, fun h => ?_⟩
  · have he : extract_text_from_selection (t, c) = none := by
      rw [extract_text_from_selection, if_neg h]
    exact ⟨by simp [handle_search_request, he], by simp [handle_search_request, he],
      by simp [handle_search_request, he]⟩
  · have he : extract_text_from_selection (t, c) = some t := by
      rw [extract_text_from_selection, if_pos h]
    exact ⟨by simp [handle_search_request, he], by simp [handle_search_request, he],
      by simp [handle_search_request, he]⟩

/-- Witness for `routing_amended`: an accepted text routes to the
requested TextSearch, a rejected one falls back to VisualSearch for
HomeworkSearch. -/
theorem routing_amended_witness :
    handle_search_request ("hello", 50) SearchType.text = SearchAction.textSearch "hello" ∧
    handle_search_request ("", 0) SearchType.homework = SearchAction.visualSearch :=
  ⟨((routing_amended "hello" 50).2.2 ⟨by decide, by decide, by decide⟩).1,
    ((routing_amended "" 0).2.1 (by decide)).2.1⟩

/-! ## C7: preprocessing decode failure -/

/-- C7 (counterexample): when `cv2.imread` fails to decode the input,
`preprocess_image` does not fail fast — it silently returns the
original path as the sole candidate (writing nothing) and extraction
proceeds on it: with a successful OCR outcome on the original the
pipeline continues to a normal consensus result, so no decode error is
ever propagated. -/
theorem preprocess_decode_counterexample :
    (preprocess_image screenshot_path ⟨false, none⟩).returned = [screenshot_path] ∧
    (preprocess_image screenshot_path ⟨false, none⟩).filesWritten = [] ∧
    extract_with_outcome ⟨false, none⟩
      (fun p => if p == screenshot_path then some [("hello", 80)] else none) =
      ("hello", 80) := by
  refine ⟨rfl, rfl, ?_⟩
  have hacc : stratAccepted [("hello", 80)] = [("hello", 80)] := by decide
  simp only [extract_with_outcome, preprocess_image]
  simp only [List.map_cons, List.map_nil, beq_self_eq_true, if_pos]
  simp only [extract_text_multi_strategy, List.foldl_cons, List.foldl_nil,
    consensusStep, hacc]
  norm_num [joinSpace]

/-- C7 (amended): on decode failure `preprocess_image` totally and
silently returns the original image path as the single candidate,
writing no file; the pipeline continues with it instead of propagating
an error. -/
theorem preprocess_decode_amended :
    ∀ (input : String) (r : Option (Fin 3)),
      preprocess_image input ⟨false, r⟩ = ⟨[], [input]⟩ := by
  intro input r
  rfl

/-! ## C9: candidate cleanup -/

/-- C9 (counterexample): when decoding succeeds but strategy 3 raises
after strategies 1 and 2 have written their files, `preprocess_image`
returns only the original path, so the cleanup loop of
`extract_text_multi_strategy` deletes nothing and both written
candidate files remain in the temp directory after extraction. -/
theorem cleanup_leak_counterexample :
    (preprocess_image screenshot_path ⟨true, some 2⟩).filesWritten =
      [ocr_adaptive_path, ocr_otsu_path] ∧
    extract_cleanup_remaining screenshot_path ⟨true, some 2⟩ =
      [ocr_adaptive_path, ocr_otsu_path] ∧
    extract_cleanup_remaining screenshot_path ⟨true, some 2⟩ ≠ [] := by
  refine ⟨by decide, by decide, by decide⟩

/-- C9 (amended): after extraction the cleanup loop has deleted every
path of the returned candidate list other than the input; in
particular when preprocessing completed without raising (and the input
is not itself one of the strategy paths) no candidate file remains.
Files written before a mid-preprocessing raise are not covered: they
are abandoned undeleted. -/
theorem cleanup_amended :
    ∀ (input : String) (o : PrepOutcome),
      (∀ p, p ∈ (preprocess_image input o).returned → p ≠ input →
        p ∉ extract_cleanup_remaining input o) ∧
      (o.decodeOk = true → o.raiseAt = none → input ∉ strategy_paths →
        extract_cleanup_remaining input o = []) := by
  intro input o
  constructor
  · intro p hp hne
    simp only [extract_cleanup_remaining, List.mem_filter, not_and]
    intro _hmem
    have hc : (preprocess_image input o).returned.contains p = true :=
      List.elem_iff.2 hp
    have hb : (p != input) = true := bne_iff_ne.2 hne
    rw [hc, hb]
    decide
  · intro hdec hraise hnotin
    rcases o with ⟨d, r⟩
    simp only at hdec hraise
    subst hdec; subst hraise
    have hpre : preprocess_image input ⟨true, none⟩ =
        ⟨strategy_paths, strategy_paths⟩ := rfl
    simp only [extract_cleanup_remaining, hpre]
    rw [List.filter_eq_nil_iff]
    intro p hp
    have hc : strategy_paths.contains p = true := List.elem_iff.2 hp
    have hne : p ≠ input := fun h => hnotin (h ▸ hp)
    simp [hc, bne_iff_ne, hne, hp]

/-- Witness for `cleanup_amended`: on a raise-free run from the real
screenshot path, the otsu candidate file is deleted and nothing
remains. -/
theorem cleanup_amended_witness :
    ocr_otsu_path ∉ extract_cleanup_remaining screenshot_path ⟨true, none⟩ ∧
    extract_cleanup_remaining screenshot_path ⟨true, none⟩ = [] :=
  ⟨(cleanup_amended screenshot_path ⟨true, none⟩).1 ocr_otsu_path (by decide) (by decide),
    (cleanup_amended screenshot_path ⟨true, none⟩).2 rfl rfl (by decide)⟩

/-! ## C8 and C10: OCR consensus -/

/-- Every accepted observation has a visible token and positive
confidence. -/
lemma stratAccepted_mem (data : List (String × ℤ)) (w : String × ℤ)
    (hw : w ∈ stratAccepted data) : hasVisibleChar w.1 = true ∧ 0 < w.2 := by
  have hp := List.of_mem_filter hw
  simpa [Bool.and_eq_true, decide_eq_true_eq] using hp

/-- A token with a visible character is not the empty string. -/
lemma hasVisibleChar_ne_empty (w : String) (h : hasVisibleChar w = true) : w ≠ "" := by
  intro hcontra
  subst hcontra
  simp [hasVisibleChar] at h

/-- Joining a non-empty token list headed by a non-empty token gives a
non-empty string. -/
lemma joinSpace_ne_empty (w : String) (l : List String) (hw : w ≠ "") :
    joinSpace (w :: l) ≠ "" := by
  cases l with
  | nil => simpa [joinSpace] using hw
  | cons v vs =>
    simp only [joinSpace]
    intro hcontra
    have hlen := congrArg String.length hcontra
    rw [String.length_append, String.length_append] at hlen
    have hsp : (" " : String).length = 1 := rfl
    have hz : ("" : String).length = 0 := rfl
    rw [hsp, hz] at hlen
    omega

/-- A strategy with no accepted observation summarizes to the empty
result. -/
lemma strategyResult_empty (data : List (String × ℤ)) (h : stratAccepted data = []) :
    strategyResult data = ("", 0) := by
  simp [strategyResult, h]

/-- A strategy with an accepted observation has non-empty joined text
and strictly positive average confidence. -/
lemma strategyResult_pos (data : List (String × ℤ)) (h : stratAccepted data ≠ []) :
    (strategyResult data).1 ≠ "" ∧ 0 < (strategyResult data).2 := by
  have hcond : (((stratAccepted data).map Prod.fst).isEmpty ||
      ((stratAccepted data).map Prod.snd).isEmpty) = false := by
    rcases hws : stratAccepted data with _ | ⟨w, rest⟩
    · exact absurd hws h
    · simp
  constructor
  · rcases hws : stratAccepted data with _ | ⟨w, rest⟩
    · exact absurd hws h
    · have hw1 : w.1 ≠ "" :=
        hasVisibleChar_ne_empty w.1 (stratAccepted_mem data w (by rw [hws]; simp)).1
      simp only [strategyResult, hcond, Bool.false_eq_true, if_false]
      rw [hws]
      exact joinSpace_ne_empty w.1 _ hw1
  · simp only [strategyResult, hcond, Bool.false_eq_true, if_false]
    apply div_pos
    · apply List.sum_pos
      · intro x hx
        rw [List.mem_map] at hx
        obtain ⟨c, hc, hcx⟩ := hx
        rw [List.mem_map] at hc
        obtain ⟨u, hu, huc⟩ := hc
        have hpos := (stratAccepted_mem data u hu).2
        rw [← hcx, ← huc]
        exact_mod_cast hpos
      · intro hnil
        rw [List.map_eq_nil_iff, List.map_eq_nil_iff] at hnil
        exact h hnil
    · have hn : 0 < ((stratAccepted data).map Prod.snd).length := by
        rw [List.length_map]
        exact List.length_pos.2 h
      exact_mod_cast hn

/-- One iteration of the code loop equals the max-update on the
per-strategy summary, provided the running best is non-negative. -/
lemma consensusStep_eq (best : String × ℚ) (o : Option (List (String × ℤ)))
    (hb : 0 ≤ best.2) : consensusStep best o = bestStep best (toStrategyResult o) := by
  rcases o with _ | data
  · have ht : toStrategyResult none = ("", 0) := rfl
    rw [ht]
    simp [consensusStep, bestStep, if_neg (not_lt.2 hb)]
  · have hts : toStrategyResult (some data) = strategyResult data := rfl
    rw [hts]
    by_cases hcond : (((stratAccepted data).map Prod.fst).isEmpty ||
        ((stratAccepted data).map Prod.snd).isEmpty) = true
    · have hlhs : consensusStep best (some data) = best := by
        simp only [consensusStep, hcond, if_true]
      have hsr : strategyResult data = ("", 0) := by
        simp only [strategyResult, hcond, if_true]
      rw [hlhs, hsr]
      simp [bestStep, if_neg (not_lt.2 hb)]
    · have hcond2 := hcond
      rw [Bool.not_eq_true] at hcond2
      simp only [consensusStep, strategyResult, hcond2, Bool.false_eq_true, if_false,
        bestStep]

/-- The running best stays non-negative across iterations. -/
lemma consensusStep_nonneg (best : String × ℚ) (o : Option (List (String × ℤ)))
    (hb : 0 ≤ best.2) : 0 ≤ (consensusStep best o).2 := by
  rw [consensusStep_eq best o hb]
  unfold bestStep
  by_cases hlt : best.2 < (toStrategyResult o).2
  · rw [if_pos hlt]
    exact le_of_lt (lt_of_le_of_lt hb hlt)
  · rw [if_neg hlt]
    exact hb

/-- The strategy loop equals a max-fold over the per-strategy
summaries (for any non-negative starting best). -/
lemma extract_eq_foldmax_aux (strats : List (Option (List (String × ℤ))))
    (best : String × ℚ) (hb : 0 ≤ best.2) :
    strats.foldl consensusStep best =
      (strats.map toStrategyResult).foldl bestStep best := by
  induction strats generalizing best with
  | nil => rfl
  | cons o rest ih =>
    rw [List.map_cons, List.foldl_cons, List.foldl_cons, consensusStep_eq best o hb,
      ← consensusStep_eq best o hb]
    exact ih (consensusStep best o) (consensusStep_nonneg best o hb)

/-- `extract_text_multi_strategy` is the max-fold over the
per-strategy summaries. -/
lemma extract_eq_foldmax (strats : List (Option (List (String × ℤ)))) :
    extract_text_multi_strategy strats =
      (strats.map toStrategyResult).foldl bestStep ("", 0) := by
  unfold extract_text_multi_strategy
  exact extract_eq_foldmax_aux strats ("", 0) le_rfl

/-- The max-fold result dominates its start and every list element. -/
lemma foldmax_ge (rs : List (String × ℚ)) (b : String × ℚ) :
    b.2 ≤ (rs.foldl bestStep b).2 ∧
      ∀ r ∈ rs, r.2 ≤ (rs.foldl bestStep b).2 := by
  induction rs generalizing b with
  | nil => exact ⟨le_rfl, by simp⟩
  | cons r rest ih =>
    have hstep : b.2 ≤ (bestStep b r).2 ∧ r.2 ≤ (bestStep b r).2 := by
      unfold bestStep
      by_cases hlt : b.2 < r.2
      · rw [if_pos hlt]
        exact ⟨le_of_lt hlt, le_rfl⟩
      · rw [if_neg hlt]
        exact ⟨le_rfl, not_lt.1 hlt⟩
    obtain ⟨ih1, ih2⟩ := ih (bestStep b r)
    refine ⟨le_trans hstep.1 ih1, ?_⟩
    intro u hu
    rcases List.mem_cons.1 hu with hu | hu
    · subst hu
      rw [List.foldl_cons]
      exact le_trans hstep.2 ih1
    · rw [List.foldl_cons]
      exact ih2 u hu

/-- A max-fold over all-empty summaries stays empty. -/
lemma foldmax_all_empty (rs : List (String × ℚ)) (h : ∀ r ∈ rs, r = ("", 0)) :
    rs.foldl bestStep ("", 0) = ("", 0) := by
  induction rs with
  | nil => rfl
  | cons r rest ih =>
    have hr := h r (by simp)
    rw [List.foldl_cons, hr]
    have hbs : bestStep ("", 0) (("", 0) : String × ℚ) = ("", 0) := by
      unfold bestStep
      simp
    rw [hbs]
    exact ih fun u hu => h u (List.mem_cons_of_mem _ hu)

/-- C8 (counterexample): on the single OCR outcome
`[("ab", 50), (" ", 80)]` the source result is `("ab", 50)` — the
whitespace-only token is dropped by the `word.strip()` test — while
the claim, which accepts every token with confidence strictly above
the floor, predicts `("ab  ", 65)`; the two disagree. -/
theorem consensus_whitespace_counterexample :
    extract_text_multi_strategy [some [("ab", 50), (" ", 80)]] = ("ab", 50) ∧
    claimConsensus [some [("ab", 50), (" ", 80)]] = ("ab  ", 65) ∧
    (("ab", (50 : ℚ)) : String × ℚ) ≠ ("ab  ", 65) := by
  refine ⟨?_, ?_, ?_⟩
  · have hacc : stratAccepted [("ab", 50), (" ", 80)] = [("ab", 50)] := by decide
    simp only [extract_text_multi_strategy, List.foldl_cons, List.foldl_nil,
      consensusStep, hacc]
    norm_num [joinSpace]
  · have hfil : ([("ab", (50 : ℤ)), (" ", 80)].filter fun w => decide (0 < w.2)) =
        [("ab", 50), (" ", 80)] := by decide
    simp only [claimConsensus, List.map_cons, List.map_nil, hfil, List.foldl_cons,
      List.foldl_nil]
    norm_num [joinSpace, bestStep]
    decide
  · intro h
    have h1 := congrArg Prod.fst h
    exact absurd h1 (by decide)

/-- C8 (amended): a token is accepted iff it has a visible
(non-whitespace) character and confidence strictly above the noise
floor 0; each accepted strategy summary joins the accepted tokens in
source order with single spaces and averages their confidences; the
returned consensus is the max-fold over the per-strategy summaries —
maximal average, ties kept by the earlier strategy — and it is the
empty result exactly when no strategy accepted any token. -/
theorem consensus_amended : ∀ strats : List (Option (List (String × ℤ))),
    extract_text_multi_strategy strats =
      (strats.map toStrategyResult).foldl bestStep ("", 0) ∧
    (extract_text_multi_strategy strats = ("", 0) ↔
      ∀ data, some data ∈ strats → stratAccepted data = []) := by
  intro strats
  refine ⟨extract_eq_foldmax strats, ?_, ?_⟩
  · intro hres data hdata
    by_contra hne
    have hpos := (strategyResult_pos data hne).2
    have hmem : strategyResult data ∈ strats.map toStrategyResult := by
      rw [List.mem_map]
      exact ⟨some data, hdata, rfl⟩
    have hge := (foldmax_ge (strats.map toStrategyResult) ("", 0)).2 _ hmem
    rw [← extract_eq_foldmax strats, hres] at hge
    exact absurd (lt_of_lt_of_le hpos hge) (lt_irrefl 0)
  · intro hall
    rw [extract_eq_foldmax strats]
    apply foldmax_all_empty
    intro r hr
    rw [List.mem_map] at hr
    obtain ⟨o, ho, hor⟩ := hr
    rcases o with _ | data
    · exact hor ▸ rfl
    · have hempty := hall data ho
      rw [← hor]
      have hts : toStrategyResult (some data) = strategyResult data := rfl
      rw [hts]
      exact strategyResult_empty data hempty

/-- Witness for `consensus_amended`: a raised-only run yields the
empty consensus. -/
theorem consensus_amended_witness :
    extract_text_multi_strategy [(none : Option (List (String × ℤ)))] = ("", 0) :=
  ((consensus_amended [none]).2).2 fun _data hdata => by simp at hdata

/-- C10 (confirmed): for every set of OCR outcomes, the returned
consensus pair has empty text exactly when its confidence is zero —
any accepted token forces a strictly positive average, and the best
result only moves to a strictly larger average. -/
theorem extract_empty_iff_zero : ∀ strats : List (Option (List (String × ℤ))),
    ((extract_text_multi_strategy strats).1 = "" ↔
      (extract_text_multi_strategy strats).2 = 0) := by
  intro strats
  rw [extract_eq_foldmax strats]
  have hinv : ∀ r ∈ strats.map toStrategyResult,
      (r.1 = "" ↔ r.2 = 0) ∧ 0 ≤ r.2 := by
    intro r hr
    rw [List.mem_map] at hr
    obtain ⟨o, ho, hor⟩ := hr
    subst hor
    rcases o with _ | data
    · exact ⟨by simp [toStrategyResult], le_rfl⟩
    · have hts : toStrategyResult (some data) = strategyResult data := rfl
      rw [hts]
      by_cases hne : stratAccepted data = []
      · rw [strategyResult_empty data hne]
        exact ⟨by simp, le_rfl⟩
      · obtain ⟨h1, h2⟩ := strategyResult_pos data hne
        exact ⟨⟨fun h => absurd h h1, fun h => absurd h (ne_of_gt h2)⟩, le_of_lt h2⟩
  have hmain : ∀ (rs : List (String × ℚ)) (b : String × ℚ),
      ((b.1 = "" ↔ b.2 = 0) ∧ 0 ≤ b.2) →
      (∀ r ∈ rs, (r.1 = "" ↔ r.2 = 0) ∧ 0 ≤ r.2) →
      ((rs.foldl bestStep b).1 = "" ↔ (rs.foldl bestStep b).2 = 0) := by
    intro rs
    induction rs with
    | nil => exact fun b hb _ => hb.1
    | cons r rest ih =>
      intro b hb hrs
      rw [List.foldl_cons]
      apply ih
      · have hr := hrs r (by simp)
        unfold bestStep
        by_cases hlt : b.2 < r.2
        · rw [if_pos hlt]; exact hr
        · rw [if_neg hlt]; exact hb
      · exact fun u hu => hrs u (List.mem_cons_of_mem _ hu)
  exact hmain _ _ ⟨by simp, le_rfl⟩ hinv

/-! ## C6: preprocessing strategy set -/

/-- Multiplication by a zero fraction collapses to zero. -/
lemma frac_mul_zero (q : Frac) : Frac.mul ⟨0, 1⟩ q = ⟨0, 1⟩ := by
  simp [Frac.mul, Frac.mk0]

/-- Whenever the running class weight is an integer (as it is on an
image with a single histogram bin), the Otsu skip condition fires:
either the weight is below epsilon or its complement is. -/
lemma otsu_skip (x : Frac) (m : ℕ) (hx : x.num = (m : ℤ) * x.den) (hd : 0 < x.den) :
    Frac.blt (Frac.bmin x (Frac.sub ⟨1, 1⟩ x)) ⟨1, 8388608⟩ = true := by
  have hsub : Frac.sub ⟨1, 1⟩ x = Frac.mk0 (x.den - x.num) x.den := by
    simp [Frac.sub, Frac.mk0]
  rcases Nat.eq_zero_or_pos m with hm | hm
  · subst hm
    simp only [Nat.cast_zero, zero_mul] at hx
    have hq2 : Frac.sub ⟨1, 1⟩ x = ⟨x.den, x.den⟩ := by
      rw [hsub, hx, sub_zero, Frac.mk0, if_neg (by omega)]
    have hb1 : Frac.blt x ⟨x.den, x.den⟩ = true := by
      simp only [Frac.blt, decide_eq_true_eq, hx]
      nlinarith
    rw [hq2]
    unfold Frac.bmin
    rw [hb1]
    simp only [if_true]
    simp only [Frac.blt, decide_eq_true_eq, hx]
    omega
  · have hnum : (0 : ℤ) < x.num := by
      rw [hx]
      have hm0 : (0 : ℤ) < (m : ℤ) := by exact_mod_cast hm
      positivity
    rcases eq_or_lt_of_le hm with hm1 | hm2
    · have hx1 : x.num = x.den := by rw [hx, ← hm1]; ring
      have hq2 : Frac.sub ⟨1, 1⟩ x = ⟨0, 1⟩ := by
        rw [hsub, hx1]; simp [Frac.mk0]
      have hb1 : Frac.blt x ⟨0, 1⟩ = false := by
        simp only [Frac.blt, decide_eq_false_iff_not, not_lt]
        omega
      rw [hq2]
      unfold Frac.bmin
      rw [hb1]
      simp only [Bool.false_eq_true, if_false]
      decide
    · have h2 : (2 : ℤ) ≤ (m : ℤ) := by exact_mod_cast hm2
      have hlt : x.den - x.num < 0 := by nlinarith
      have hq2 : Frac.sub ⟨1, 1⟩ x = ⟨x.den - x.num, x.den⟩ := by
        rw [hsub, Frac.mk0, if_neg (by omega)]
      have hb1 : Frac.blt x ⟨x.den - x.num, x.den⟩ = false := by
        simp only [Frac.blt, decide_eq_false_iff_not, not_lt]
        nlinarith
      rw [hq2]
      unfold Frac.bmin
      rw [hb1]
      simp only [Bool.false_eq_true, if_false]
      simp only [Frac.blt, decide_eq_true_eq]
      nlinarith

/-- The histogram of the uniform gray image is concentrated at 128. -/
lemma histCount_g128 (i : ℕ) : histCount g128 i = if i = 128 then 9 else 0 := by
  rcases eq_or_ne i 128 with h | h
  · subst h; decide
  · have hb : (128 == i) = false := by
      simp [Nat.beq_eq_true_eq]
      omega
    simp [histCount, g128, List.countP_cons, hb, h]

/-- Adding two integer-valued fractions with positive denominators
yields an integer-valued fraction with positive denominator. -/
lemma frac_add_intval (q p : Frac) (k m : ℕ)
    (hq : q.num = (k : ℤ) * q.den) (hp : p.num = (m : ℤ) * p.den)
    (hqd : 0 < q.den) (hpd : 0 < p.den) :
    ∃ n : ℕ, (Frac.add q p).num = (n : ℤ) * (Frac.add q p).den ∧
      0 < (Frac.add q p).den := by
  unfold Frac.add Frac.mk0
  have hval : q.num * p.den + p.num * q.den = ((k + m : ℕ) : ℤ) * (q.den * p.den) := by
    rw [hq, hp]; push_cast; ring
  rcases eq_or_ne (q.num * p.den + p.num * q.den) 0 with h0 | h0
  · rw [if_pos h0]
    exact ⟨0, by norm_num⟩
  · rw [if_neg h0]
    exact ⟨k + m, hval, by positivity⟩

/-- On the uniform gray image every Otsu iteration takes the skip
branch and only advances the integer-valued class weight. -/
lemma otsuStep_g128 (mu q : Frac) (k : ℕ)
    (hk : q.num = (k : ℤ) * q.den) (hd : 0 < q.den) (i : ℕ) :
    ∃ (qn : Frac) (m : ℕ), qn.num = (m : ℤ) * qn.den ∧ 0 < qn.den ∧
      otsuStep (Frac.ofNat 9) mu (otsuH g128) (q, ⟨0, 1⟩, ⟨0, 1⟩, 0) i =
        (qn, ⟨0, 1⟩, ⟨0, 1⟩, 0) := by
  have hpival : ∃ mp : ℕ,
      (Frac.div (otsuH g128 i) (Frac.ofNat 9)).num =
        (mp : ℤ) * (Frac.div (otsuH g128 i) (Frac.ofNat 9)).den ∧
      0 < (Frac.div (otsuH g128 i) (Frac.ofNat 9)).den := by
    rcases eq_or_ne i 128 with h | h
    · subst h
      refine ⟨1, ?_⟩
      have hv : Frac.div (otsuH g128 128) (Frac.ofNat 9) = ⟨9, 9⟩ := by
        simp [otsuH, histCount_g128, Frac.div, Frac.ofNat, Frac.mk0]
      rw [hv]; norm_num
    · refine ⟨0, ?_⟩
      have hv : Frac.div (otsuH g128 i) (Frac.ofNat 9) = ⟨0, 1⟩ := by
        simp [otsuH, histCount_g128, h, Frac.div, Frac.ofNat, Frac.mk0]
      rw [hv]; norm_num
  obtain ⟨mp, hpnum, hpden⟩ := hpival
  obtain ⟨n, hrnum, hrden⟩ :=
    frac_add_intval q (Frac.div (otsuH g128 i) (Frac.ofNat 9)) k mp hk hpnum hd hpden
  refine ⟨Frac.add q (Frac.div (otsuH g128 i) (Frac.ofNat 9)), n, hrnum, hrden, ?_⟩
  unfold otsuStep
  simp only
  rw [otsu_skip _ n hrnum hrden]
  simp only [Bool.true_or, if_true]
  rw [frac_mul_zero]

/-- The Otsu pass over any bin list leaves the uniform-image state
with zero variance and threshold 0. -/
lemma otsu_fold_g128 (mu : Frac) (l : List ℕ) (q : Frac) (k : ℕ)
    (hk : q.num = (k : ℤ) * q.den) (hd : 0 < q.den) :
    ∃ (qn : Frac) (m : ℕ), qn.num = (m : ℤ) * qn.den ∧ 0 < qn.den ∧
      l.foldl (otsuStep (Frac.ofNat 9) mu (otsuH g128)) (q, ⟨0, 1⟩, ⟨0, 1⟩, 0) =
        (qn, ⟨0, 1⟩, ⟨0, 1⟩, 0) := by
  induction l generalizing q k with
  | nil => exact ⟨q, k, hk, hd, rfl⟩
  | cons i rest ih =>
    obtain ⟨q1, m1, h1, h1d, hstep⟩ := otsuStep_g128 mu q k hk hd i
    obtain ⟨qn, m, hn, hnd, hfold⟩ := ih q1 m1 h1 h1d
    refine ⟨qn, m, hn, hnd, ?_⟩
    rw [List.foldl_cons, hstep, hfold]

/-- On the uniform gray image the Otsu threshold is 0 (no bin has a
qualifying between-class variance). -/
lemma otsuThreshold_g128 : otsuThreshold g128 = 0 := by
  have hsum : (g128.map List.length).sum = 9 := by decide
  obtain ⟨qn, m, _, _, hfold⟩ :=
    otsu_fold_g128 (otsuMu g128 (Frac.ofNat 9)) (List.range 256) ⟨0, 1⟩ 0
      (by norm_num) (by norm_num)
  simp only [otsuThreshold, hsum]
  rw [if_neg (by norm_num : ¬(9 = 0))]
  rw [hfold]

/-- cv2 grayscale of the uniform image. -/
lemma cvt_u128 : cvtColorGray u128 = g128 := by decide

/-- PIL grayscale of the uniform image. -/
lemma pil_u128 : pilL u128 = g128 := by decide

set_option maxRecDepth 4000 in
/-- Adaptive thresholding maps the uniform image to all-white. -/
lemma adaptive_g128 : adaptiveThreshold g128 = w255 := by decide

/-- Contrast enhancement fixes the uniform image. -/
lemma enhance_g128 : enhanceContrast g128 = g128 := by decide

/-- Otsu binarization maps the uniform image to all-white. -/
lemma otsuBin_g128 : otsuBinarize g128 = w255 := by
  simp only [otsuBinarize, otsuThreshold_g128]
  decide

/-- The candidate set of the uniform image. -/
lemma candidates_u128 : preprocess_candidates u128 = [w255, w255, g128] := by
  unfold preprocess_candidates
  simp only [cvt_u128, pil_u128, adaptive_g128, enhance_g128, otsuBin_g128]

/-- C6 (counterexample): on the uniform mid-gray input the candidate
set is `[white, white, gray]`, and none of the candidates is the
photometric inversion (255 minus each pixel) of the grayscale base or
of any candidate — the strategy set contains no dark-background
(inverted) variant. -/
theorem preprocess_inversion_counterexample :
    ¬ ∃ c ∈ preprocess_candidates u128,
      ∃ b ∈ cvtColorGray u128 :: pilL u128 :: preprocess_candidates u128,
        c = invertImage b := by
  simp only [candidates_u128, cvt_u128, pil_u128]
  decide

/-- C6 (amended): for every decoded input the candidate set contains
strategy 1 — grayscale plus adaptive local thresholding — and consists
of exactly the three strategies of the source (adaptive, Otsu,
contrast enhancement), each with the dimensions of the input; a
photometrically inverted variant is not guaranteed (and, per the
counterexample, sometimes absent). -/
theorem preprocess_candidates_amended : ∀ img : List (List (ℕ × ℕ × ℕ)),
    adaptiveThreshold (cvtColorGray img) ∈ preprocess_candidates img ∧
    (preprocess_candidates img).length = 3 ∧
    ∀ c ∈ preprocess_candidates img, c.length = img.length := by
  intro img
  refine ⟨?_, ?_, ?_⟩
  · simp [preprocess_candidates]
  · simp [preprocess_candidates]
  · intro c hc
    simp only [preprocess_candidates, List.mem_cons, List.not_mem_nil, or_false] at hc
    rcases hc with h | h | h <;> subst h
    · simp [adaptiveThreshold, cvtColorGray]
    · simp [otsuBinarize, cvtColorGray]
    · simp [enhanceContrast, pilL]

/-- Witness for `preprocess_candidates_amended` at the uniform
image. -/
theorem preprocess_candidates_amended_witness :
    adaptiveThreshold (cvtColorGray u128) ∈ preprocess_candidates u128 ∧
    (enhanceContrast (pilL u128)).length = u128.length :=
  ⟨(preprocess_candidates_amended u128).1,
    (preprocess_candidates_amended u128).2.2 _ (by simp [preprocess_candidates])⟩
